import Mathlib

/-!
Verification of the symex general-assembly symbolic execution engine
(crates `symex` and `symex_take_2`) against its natural-language
specification.  The definitions below are shallow embeddings of the
Rust source: machine integers become `Nat` with explicit `% 2 ^ w`
where wrap-around matters, fallible functions return `Except` or an
explicit outcome type, and `&mut self` methods become state-passing
functions.  Definitions carry doc comments naming the source item they
embed; a few items whose code lives outside the packaged sources
(the SMT expression layer and the ELF program image) are modelled from
the specification and say so explicitly.
-/

/-- Embeds `Endianness` from `symex_take_2/src/lib.rs` (variants `Little` and
`Big`). -/
inductive Endianness where
  | little
  | big
deriving DecidableEq

/-- Modelled from the spec: the SMT backend's bitvector values (the `DExpr`
constant-folding layer lives in the external solver crate).  A bitvector is a
declared width together with a value; all operations keep the value reduced
below `2 ^ width`. -/
structure BV where
  width : Nat
  val : Nat
deriving DecidableEq

/-- Embeds `DExpr::len` (bit width of an expression). -/
def BV.len (b : BV) : Nat := b.width

/-- Modelled from the spec: extract of the slice `[low..high]` (inclusive) of
a bitvector, spec section 3 "extract slice [lo..hi]". -/
def BV.slice (b : BV) (low high : Nat) : BV :=
  ⟨high + 1 - low, b.val / 2 ^ low % 2 ^ (high + 1 - low)⟩

/-- Modelled from the spec: concatenation, `self` becoming the high bits.
The byte order is pinned down by the unit tests at the bottom of
`symex_take_2/src/memory/array_memory.rs`. -/
def BV.concat (b other : BV) : BV :=
  ⟨b.width + other.width, b.val * 2 ^ other.width + other.val⟩

/-- Modelled from the spec: zero extension to a larger width. -/
def BV.zero_ext (b : BV) (w : Nat) : BV := ⟨w, b.val⟩

/-- Modelled from the spec: the symbolic expressions handed around by the
engine.  Only the structure the engine inspects is represented: a constant
with a width, or a symbolic (unconstrained) expression; `get_constant`
distinguishes the two. -/
inductive DExpr where
  | const (value : Nat) (width : Nat)
  | unconstrained (name : String) (width : Nat)
deriving DecidableEq

/-- Embeds `DExpr::get_constant`: `Some` exactly on symbolically constant
expressions. -/
def DExpr.get_constant : DExpr → Option Nat
  | .const v _ => some v
  | .unconstrained _ _ => none

/-- Association-list lookup, standing in for `HashMap::get` of the source. -/
def lookupA {κ α : Type} [DecidableEq κ] (l : List (κ × α)) (k : κ) : Option α :=
  match l with
  | [] => none
  | (k2, v) :: rest => if k = k2 then some v else lookupA rest k

/-- Association-list insert-or-overwrite, standing in for `HashMap::insert`
of the source. -/
def insertA {κ α : Type} [DecidableEq κ] (l : List (κ × α)) (k : κ) (v : α) : List (κ × α) :=
  match l with
  | [] => [(k, v)]
  | (k2, v2) :: rest => if k = k2 then (k, v) :: rest else (k2, v2) :: insertA rest k v

/-- Embeds the constant `BITS_IN_BYTE` from `symex_take_2/src/memory`. -/
def BITS_IN_BYTE : Nat := 8

/-- Embeds `ArrayMemory` from `symex_take_2/src/memory/array_memory.rs`:
a byte-addressed array of 8-bit cells over pointer-sized addresses, with an
endianness.  Addresses are `Nat` reduced modulo `2 ^ ptr_size` wherever the
source performs bitvector address arithmetic. -/
structure ArrayMemory where
  ptr_size : Nat
  memory : Nat → Nat
  endianness : Endianness

/-- Embeds `ArrayMemory::read_u8`. -/
def ArrayMemory.read_u8 (m : ArrayMemory) (addr : Nat) : BV := ⟨8, m.memory addr⟩

/-- Embeds `ArrayMemory::write_u8`. -/
def ArrayMemory.write_u8 (m : ArrayMemory) (addr : Nat) (val : BV) : ArrayMemory :=
  { m with memory := fun a => if a = addr then val.val else m.memory a }

/-- Embeds the `bytes.into_iter().reduce(|acc, v| v.concat(&acc))` step of
`ArrayMemory::internal_read`. -/
def reduceConcat (bytes : List BV) : Option BV :=
  match bytes with
  | [] => none
  | b :: rest => some (rest.foldl (fun acc v => v.concat acc) b)

/-- Embeds `ArrayMemory::internal_read`: sub-byte reads slice the byte at
`addr`; otherwise consecutive bytes are read and concatenated in the order
chosen by the endianness. -/
def ArrayMemory.internal_read (m : ArrayMemory) (addr : Nat) (bits : Nat) : BV :=
  if bits < BITS_IN_BYTE then
    (m.read_u8 addr).slice (bits - 1) 0
  else
    let num_bytes := bits / BITS_IN_BYTE
    let bytes := (List.range num_bytes).map
      (fun byte => m.read_u8 ((addr + byte) % 2 ^ m.ptr_size))
    (match m.endianness with
      | Endianness.little => reduceConcat bytes
      | Endianness.big => reduceConcat bytes.reverse).getD ⟨0, 0⟩

/-- Embeds `ArrayMemory::internal_write`: values narrower than a byte are
zero-extended to 8 bits, then the value is split into bytes stored at
`addr + n` (little endian) or `addr + (num_bytes - 1 - n)` (big endian). -/
def ArrayMemory.internal_write (m : ArrayMemory) (addr : Nat) (value : BV) : ArrayMemory :=
  let value := if value.len < BITS_IN_BYTE then value.zero_ext BITS_IN_BYTE else value
  let num_bytes := value.len / BITS_IN_BYTE
  (List.range num_bytes).foldl
    (fun mem n =>
      let low_bit := n * BITS_IN_BYTE
      let high_bit := (n + 1) * BITS_IN_BYTE - 1
      let byte := value.slice low_bit high_bit
      let offset := match m.endianness with
        | Endianness.little => n
        | Endianness.big => num_bytes - 1 - n
      mem.write_u8 ((addr + offset) % 2 ^ m.ptr_size) byte)
    m

/-- Embeds `ArrayMemory::read` (the assertion that the address has pointer
width becomes a side condition of the theorems using it). -/
def ArrayMemory.read (m : ArrayMemory) (addr : Nat) (bits : Nat) : BV :=
  m.internal_read addr bits

/-- Embeds `ArrayMemory::write`. -/
def ArrayMemory.write (m : ArrayMemory) (addr : Nat) (value : BV) : ArrayMemory :=
  m.internal_write addr value

/-- Replays the repository unit test `test_little_endian_write` from
`array_memory.rs`: writing `0x01020304` little endian places the least
significant byte first. -/
theorem arrayMemory_little_endian_write_test :
    let m := (ArrayMemory.mk 32 (fun _ => 0) Endianness.little).write 0 ⟨32, 0x01020304⟩
    m.read_u8 0 = ⟨8, 0x04⟩ ∧ m.read_u8 1 = ⟨8, 0x03⟩ ∧
      m.read_u8 2 = ⟨8, 0x02⟩ ∧ m.read_u8 3 = ⟨8, 0x01⟩ := by
  decide

/-- Replays the repository unit test `test_big_endian_read` from
`array_memory.rs`. -/
theorem arrayMemory_big_endian_read_test :
    let m0 := ArrayMemory.mk 32 (fun _ => 0) Endianness.big
    let m := (((m0.write_u8 0 ⟨8, 0x01⟩).write_u8 1 ⟨8, 0x02⟩).write_u8 2
      ⟨8, 0x03⟩).write_u8 3 ⟨8, 0x04⟩
    m.read 0 32 = ⟨32, 0x01020304⟩ := by
  decide

/-- Two distinct sub-pointer offsets from the same base address stay distinct
after pointer-width wrap-around. -/
theorem addr_off_mod_eq_iff (M addr i j : Nat) (hi : i < M) (hj : j < M) :
    (addr + i) % M = (addr + j) % M ↔ i = j := by
  constructor
  · intro h
    have h2 : i ≡ j [MOD M] := Nat.ModEq.add_left_cancel (Nat.ModEq.refl addr) h
    have h3 : i % M = j % M := h2
    rwa [Nat.mod_eq_of_lt hi, Nat.mod_eq_of_lt hj] at h3
  · rintro rfl
    rfl

/-- Zero-offset variant of `addr_off_mod_eq_iff`. -/
theorem addr_mod_eq_addr_off_iff (M addr j : Nat) (hj : j < M) (h0 : 0 < M) :
    addr % M = (addr + j) % M ↔ j = 0 := by
  have h := addr_off_mod_eq_iff M addr 0 j h0 hj
  simpa [eq_comm] using h

/-- Zero-offset variant of `addr_off_mod_eq_iff`, other side. -/
theorem addr_off_mod_eq_addr_iff (M addr i : Nat) (hi : i < M) (h0 : 0 < M) :
    (addr + i) % M = addr % M ↔ i = 0 := by
  have h := addr_off_mod_eq_iff M addr i 0 hi h0
  simpa using h

/-- Every `write_u8` in a fold leaves the pointer size unchanged. -/
theorem foldl_write_u8_ptr_size (g : Nat → Nat) (h : Nat → BV) (L : List Nat)
    (m0 : ArrayMemory) :
    (L.foldl (fun mem n => mem.write_u8 (g n) (h n)) m0).ptr_size = m0.ptr_size := by
  induction L generalizing m0 with
  | nil => rfl
  | cons x xs ih =>
    rw [List.foldl_cons]
    exact ih _

/-- Every `write_u8` in a fold leaves the endianness unchanged. -/
theorem foldl_write_u8_endianness (g : Nat → Nat) (h : Nat → BV) (L : List Nat)
    (m0 : ArrayMemory) :
    (L.foldl (fun mem n => mem.write_u8 (g n) (h n)) m0).endianness = m0.endianness := by
  induction L generalizing m0 with
  | nil => rfl
  | cons x xs ih =>
    rw [List.foldl_cons]
    exact ih _

/-- After the little-endian byte-splitting loop of
`ArrayMemory::internal_write`, the cell at `addr + i` holds byte `i` of the
value. -/
theorem foldl_write_le_memory (ps : Nat) (m0 : ArrayMemory) (addr : Nat) (value : BV)
    (numb : Nat) :
    numb < 2 ^ ps → ∀ i, i < numb →
      (((List.range numb).foldl
          (fun mem n => mem.write_u8 ((addr + n) % 2 ^ ps)
            (value.slice (n * 8) ((n + 1) * 8 - 1))) m0).memory ((addr + i) % 2 ^ ps))
        = value.val / 2 ^ (8 * i) % 2 ^ 8 := by
  induction numb with
  | zero =>
    intro _ i hi
    omega
  | succ n ih =>
    intro hnumb i hi
    rw [List.range_succ, List.foldl_append, List.foldl_cons, List.foldl_nil]
    by_cases hin : i = n
    · subst hin
      simp only [ArrayMemory.write_u8, if_true]
      have hexp : (i + 1) * 8 - 1 + 1 - 8 * i = 8 := by omega
      have hmul : i * 8 = 8 * i := Nat.mul_comm i 8
      simp only [BV.slice, hexp, hmul]
    · have hne : (addr + i) % 2 ^ ps ≠ (addr + n) % 2 ^ ps := by
        rw [Ne, addr_off_mod_eq_iff (2 ^ ps) addr i n (by omega) (by omega)]
        exact hin
      simp only [ArrayMemory.write_u8]
      rw [if_neg hne]
      exact ih (by omega) i (by omega)

/-- Generalized form of the big-endian write characterization: after the
first `k` iterations of the big-endian byte-splitting loop (with declared
byte count `N`), the cell at `addr + (N - 1 - i)` holds byte `i` of the
value. -/
theorem foldl_write_be_memory_aux (ps : Nat) (m0 : ArrayMemory) (addr : Nat) (value : BV)
    (N : Nat) (hN : N ≤ 2 ^ ps) (k : Nat) :
    k ≤ N → ∀ i, i < k →
      (((List.range k).foldl
          (fun mem n => mem.write_u8 ((addr + (N - 1 - n)) % 2 ^ ps)
            (value.slice (n * 8) ((n + 1) * 8 - 1))) m0).memory
        ((addr + (N - 1 - i)) % 2 ^ ps))
        = value.val / 2 ^ (8 * i) % 2 ^ 8 := by
  induction k with
  | zero =>
    intro _ i hi
    omega
  | succ k ih =>
    intro hk i hi
    rw [List.range_succ, List.foldl_append, List.foldl_cons, List.foldl_nil]
    by_cases hik : i = k
    · subst hik
      simp only [ArrayMemory.write_u8, if_true]
      have hexp : (i + 1) * 8 - 1 + 1 - 8 * i = 8 := by omega
      have hmul : i * 8 = 8 * i := Nat.mul_comm i 8
      simp only [BV.slice, hexp, hmul]
    · have hne : (addr + (N - 1 - i)) % 2 ^ ps ≠ (addr + (N - 1 - k)) % 2 ^ ps := by
        rw [Ne, addr_off_mod_eq_iff (2 ^ ps) addr _ _ (by omega) (by omega)]
        omega
      simp only [ArrayMemory.write_u8]
      rw [if_neg hne]
      exact ih (by omega) i (by omega)

/-- After the big-endian byte-splitting loop of
`ArrayMemory::internal_write` with byte count `N`, the cell at `addr + j`
holds byte `N - 1 - j` of the value. -/
theorem foldl_write_be_memory (ps : Nat) (m0 : ArrayMemory) (addr : Nat) (value : BV)
    (N : Nat) (hN : N ≤ 2 ^ ps) (j : Nat) (hj : j < N) :
    (((List.range N).foldl
        (fun mem n => mem.write_u8 ((addr + (N - 1 - n)) % 2 ^ ps)
          (value.slice (n * 8) ((n + 1) * 8 - 1))) m0).memory ((addr + j) % 2 ^ ps))
      = value.val / 2 ^ (8 * (N - 1 - j)) % 2 ^ 8 := by
  have h := foldl_write_be_memory_aux ps m0 addr value N hN N (Nat.le_refl N)
    (N - 1 - j) (by omega)
  have hjj : N - 1 - (N - 1 - j) = j := by omega
  rw [hjj] at h
  exact h

/-- Evaluation of `List.map` over the one-element index range. -/
theorem map_range_1 {α : Type} (f : Nat → α) :
    (List.range 1).map f = [f 0] := rfl

/-- Evaluation of `List.map` over the two-element index range. -/
theorem map_range_2 {α : Type} (f : Nat → α) :
    (List.range 2).map f = [f 0, f 1] := rfl

/-- Evaluation of `List.map` over the four-element index range. -/
theorem map_range_4 {α : Type} (f : Nat → α) :
    (List.range 4).map f = [f 0, f 1, f 2, f 3] := rfl

/-- Evaluation of `List.map` over the eight-element index range. -/
theorem map_range_8 {α : Type} (f : Nat → α) :
    (List.range 8).map f = [f 0, f 1, f 2, f 3, f 4, f 5, f 6, f 7] := rfl

set_option maxHeartbeats 2000000 in
/-- C5: For every width `w` in 8, 16, 32 or 64 and every constant `v` of
width `w`, writing `v` into the array memory (pointer size 32, as the engine
instantiates it) at any address and then reading `w` bits back from the same
address yields `v` again, for both endiannesses: the byte split performed by
`ArrayMemory::internal_write` (byte `n` stored at `addr + n` little endian,
at `addr + (num_bytes - 1 - n)` big endian) is inverted exactly by the byte
concatenation of `ArrayMemory::internal_read`.  Sub-byte values are
zero-extended to 8 bits by `internal_write` before being split, as the
`BV.zero_ext` branch in its definition shows. -/
theorem c5_endianness_round_trip (e : Endianness) (mem0 : Nat → Nat) (addr v w : Nat)
    (hw : w = 8 ∨ w = 16 ∨ w = 32 ∨ w = 64) (hv : v < 2 ^ w) :
    ((ArrayMemory.mk 32 mem0 e).write addr ⟨w, v⟩).read addr w = ⟨w, v⟩ := by
  rcases hw with hw | hw | hw | hw <;> subst hw <;> rcases e
  · have hL := foldl_write_le_memory 32 (ArrayMemory.mk 32 mem0 Endianness.little) addr
      ⟨8, v⟩ 1 (by norm_num)
    simp only [ArrayMemory.write, ArrayMemory.read, ArrayMemory.internal_write,
      ArrayMemory.internal_read, ArrayMemory.read_u8, BV.len, BV.zero_ext,
      BITS_IN_BYTE, Nat.reduceDiv, reduceIte, Nat.reduceLT,
      foldl_write_u8_ptr_size, foldl_write_u8_endianness, map_range_1,
      reduceConcat, List.foldl_cons, List.foldl_nil, BV.concat, Option.getD_some,
      Nat.reduceAdd, Nat.reduceMul, hL, BV.mk.injEq, true_and, and_true]
    omega
  · have hB := foldl_write_be_memory 32 (ArrayMemory.mk 32 mem0 Endianness.big) addr
      ⟨8, v⟩ 1 (by norm_num)
    simp only [ArrayMemory.write, ArrayMemory.read, ArrayMemory.internal_write,
      ArrayMemory.internal_read, ArrayMemory.read_u8, BV.len, BV.zero_ext,
      BITS_IN_BYTE, Nat.reduceDiv, reduceIte, Nat.reduceLT,
      foldl_write_u8_ptr_size, foldl_write_u8_endianness, map_range_1,
      List.reverse_cons, List.reverse_nil, List.cons_append, List.nil_append,
      reduceConcat, List.foldl_cons, List.foldl_nil, BV.concat, Option.getD_some,
      Nat.reduceAdd, Nat.reduceMul, Nat.reduceSub, hB, BV.mk.injEq, true_and, and_true]
    omega
  · have hL := foldl_write_le_memory 32 (ArrayMemory.mk 32 mem0 Endianness.little) addr
      ⟨16, v⟩ 2 (by norm_num)
    simp only [ArrayMemory.write, ArrayMemory.read, ArrayMemory.internal_write,
      ArrayMemory.internal_read, ArrayMemory.read_u8, BV.len, BV.zero_ext,
      BITS_IN_BYTE, Nat.reduceDiv, reduceIte, Nat.reduceLT,
      foldl_write_u8_ptr_size, foldl_write_u8_endianness, map_range_2,
      reduceConcat, List.foldl_cons, List.foldl_nil, BV.concat, Option.getD_some,
      Nat.reduceAdd, Nat.reduceMul, hL, BV.mk.injEq, true_and, and_true]
    omega
  · have hB := foldl_write_be_memory 32 (ArrayMemory.mk 32 mem0 Endianness.big) addr
      ⟨16, v⟩ 2 (by norm_num)
    simp only [ArrayMemory.write, ArrayMemory.read, ArrayMemory.internal_write,
      ArrayMemory.internal_read, ArrayMemory.read_u8, BV.len, BV.zero_ext,
      BITS_IN_BYTE, Nat.reduceDiv, reduceIte, Nat.reduceLT,
      foldl_write_u8_ptr_size, foldl_write_u8_endianness, map_range_2,
      List.reverse_cons, List.reverse_nil, List.cons_append, List.nil_append,
      reduceConcat, List.foldl_cons, List.foldl_nil, BV.concat, Option.getD_some,
      Nat.reduceAdd, Nat.reduceMul, Nat.reduceSub, hB, BV.mk.injEq, true_and, and_true]
    omega
  · have hL := foldl_write_le_memory 32 (ArrayMemory.mk 32 mem0 Endianness.little) addr
      ⟨32, v⟩ 4 (by norm_num)
    simp only [ArrayMemory.write, ArrayMemory.read, ArrayMemory.internal_write,
      ArrayMemory.internal_read, ArrayMemory.read_u8, BV.len, BV.zero_ext,
      BITS_IN_BYTE, Nat.reduceDiv, reduceIte, Nat.reduceLT,
      foldl_write_u8_ptr_size, foldl_write_u8_endianness, map_range_4,
      reduceConcat, List.foldl_cons, List.foldl_nil, BV.concat, Option.getD_some,
      Nat.reduceAdd, Nat.reduceMul, hL, BV.mk.injEq, true_and, and_true]
    omega
  · have hB := foldl_write_be_memory 32 (ArrayMemory.mk 32 mem0 Endianness.big) addr
      ⟨32, v⟩ 4 (by norm_num)
    simp only [ArrayMemory.write, ArrayMemory.read, ArrayMemory.internal_write,
      ArrayMemory.internal_read, ArrayMemory.read_u8, BV.len, BV.zero_ext,
      BITS_IN_BYTE, Nat.reduceDiv, reduceIte, Nat.reduceLT,
      foldl_write_u8_ptr_size, foldl_write_u8_endianness, map_range_4,
      List.reverse_cons, List.reverse_nil, List.cons_append, List.nil_append,
      reduceConcat, List.foldl_cons, List.foldl_nil, BV.concat, Option.getD_some,
      Nat.reduceAdd, Nat.reduceMul, Nat.reduceSub, hB, BV.mk.injEq, true_and, and_true]
    omega
  · have hL := foldl_write_le_memory 32 (ArrayMemory.mk 32 mem0 Endianness.little) addr
      ⟨64, v⟩ 8 (by norm_num)
    simp only [ArrayMemory.write, ArrayMemory.read, ArrayMemory.internal_write,
      ArrayMemory.internal_read, ArrayMemory.read_u8, BV.len, BV.zero_ext,
      BITS_IN_BYTE, Nat.reduceDiv, reduceIte, Nat.reduceLT,
      foldl_write_u8_ptr_size, foldl_write_u8_endianness, map_range_8,
      reduceConcat, List.foldl_cons, List.foldl_nil, BV.concat, Option.getD_some,
      Nat.reduceAdd, Nat.reduceMul, hL, BV.mk.injEq, true_and, and_true]
    omega
  · have hB := foldl_write_be_memory 32 (ArrayMemory.mk 32 mem0 Endianness.big) addr
      ⟨64, v⟩ 8 (by norm_num)
    simp only [ArrayMemory.write, ArrayMemory.read, ArrayMemory.internal_write,
      ArrayMemory.internal_read, ArrayMemory.read_u8, BV.len, BV.zero_ext,
      BITS_IN_BYTE, Nat.reduceDiv, reduceIte, Nat.reduceLT,
      foldl_write_u8_ptr_size, foldl_write_u8_endianness, map_range_8,
      List.reverse_cons, List.reverse_nil, List.cons_append, List.nil_append,
      reduceConcat, List.foldl_cons, List.foldl_nil, BV.concat, Option.getD_some,
      Nat.reduceAdd, Nat.reduceMul, Nat.reduceSub, hB, BV.mk.injEq, true_and, and_true]
    omega

/-- Witness for C5 at a concrete input: width 32, little endian, address 3,
value `0x01020304`. -/
theorem c5_endianness_round_trip_witness :
    (32 = 8 ∨ 32 = 16 ∨ 32 = 32 ∨ 32 = 64) ∧ 0x01020304 < 2 ^ 32 ∧
      ((ArrayMemory.mk 32 (fun _ => 0) Endianness.little).write 3
        ⟨32, 0x01020304⟩).read 3 32 = ⟨32, 0x01020304⟩ :=
  ⟨Or.inr (Or.inr (Or.inl rfl)), by norm_num,
    c5_endianness_round_trip Endianness.little (fun _ => 0) 3 0x01020304 32
      (Or.inr (Or.inr (Or.inl rfl))) (by norm_num)⟩

/-- Embeds `ParseError` from `symex/src/general_assembly/arch.rs` lines
60-89; the take-2 crate re-exports the same taxonomy.  The source spells the
malformed variant `MalfromedInstruction`. -/
inductive ParseError where
  | insufficientInput
  | malfromedInstruction
  | invalidInstruction
  | unpredictable
  | invalidRegister
  | invalidCondition
  | generic (msg : String)
deriving DecidableEq

/-- Embeds `ArchError` from `symex/src/general_assembly/arch.rs` lines
31-58. -/
inductive ArchError where
  | unsuportedArchitechture
  | incorrectFileType
  | malformedSection
  | missingSection (s : String)
  | implementorStringError (s : String)
  | parsingError (e : ParseError)
deriving DecidableEq

/-- Embeds `Error`, the error enum of the external
`armv6_m_instruction_parser` crate, with the variants matched by `map_err`
in `symex/src/general_assembly/arch/arm/v6.rs`. -/
inductive ParserError where
  | insufficientInput
  | malfromed32BitInstruction
  | invalid32BitInstruction
  | invalidOpCode
  | unpredictable
  | invalidRegister
  | invalidCondition
deriving DecidableEq

/-- Embeds `map_err` from `symex/src/general_assembly/arch/arm/v6.rs` lines
160-170; `symex_take_2/src/arch/arm/v6.rs` lines 128-138 contain the same
function, arm for arm. -/
def map_err : ParserError → ArchError
  | .insufficientInput => .parsingError .invalidRegister
  | .malfromed32BitInstruction => .parsingError .malfromedInstruction
  | .invalid32BitInstruction => .parsingError .invalidInstruction
  | .invalidOpCode => .parsingError .invalidInstruction
  | .unpredictable => .parsingError .unpredictable
  | .invalidRegister => .parsingError .invalidRegister
  | .invalidCondition => .parsingError .invalidCondition

/-- Modelled from the spec: `armv6_m_instruction_parser::parse` lives in an
external crate.  Only the behaviour the claim needs is modelled: a byte
slice shorter than one 16-bit Thumb halfword cannot contain an instruction
and yields `Error::InsufficientInput` (the doc comment on the corresponding
`ParseError` variant reads "Input not long enough for an instruction");
longer inputs are abstracted to success. -/
def armv6m_parse (buff : List Nat) : Except ParserError Unit :=
  if buff.length < 2 then .error .insufficientInput else .ok ()

/-- Embeds the error path of `ArmV6M::translate`:
`armv6_m_instruction_parser::parse(buff).map_err(map_err)?` (v1 v6.rs lines
81-89, take-2 v6.rs lines 82-96).  The successful expansion into an
instruction is irrelevant to the claims and abstracted to `Unit`. -/
def ArmV6M.translate (buff : List Nat) : Except ArchError Unit :=
  (armv6m_parse buff).mapError map_err

/-- C9: the claim says each underlying parser error is sub-classified as the
same-named parsing error, so a too-short input yields `InsufficientInput`.
The code disagrees: `map_err` in both crates maps
`Error::InsufficientInput` to `ParseError::InvalidRegister`, so `translate`
on the empty byte slice returns the `InvalidRegister` parsing error instead
of the same-named `InsufficientInput` that the `ParseError` enum provides. -/
theorem c9_insufficient_input_misclassified :
    map_err ParserError.insufficientInput
      = ArchError.parsingError ParseError.invalidRegister ∧
    ArmV6M.translate []
      = Except.error (ArchError.parsingError ParseError.invalidRegister) ∧
    map_err ParserError.insufficientInput
      ≠ ArchError.parsingError ParseError.insufficientInput := by
  refine ⟨rfl, rfl, ?_⟩
  decide

/-- Embeds the PC hook variants (`PCHook` in the v1 project module, `PCHook2`
in `symex_take_2/src/executor/hooks.rs` lines 24-31).  Intrinsic hooks carry
an opaque tag since only hook identity matters to the claims. -/
inductive PCHook where
  | continueHook
  | endSuccess
  | endFailure (reason : String)
  | intrinsic (tag : Nat)
  | suppress
deriving DecidableEq

/-- Embeds the `Variable` record that `GAState::get_register` pushes into
`marked_symbolic`, reduced to the fields the claims read. -/
structure Variable where
  name : Option String
  value : DExpr
  width : Nat
deriving DecidableEq

/-- Embeds the fields of `GAState` (v1,
`symex/src/general_assembly/state.rs` lines 32-54) that the claims touch:
the register file, the concrete PC shadow `pc_register`, the recorded
symbolic inputs, the PC hook table the state reaches through `self.project`,
and the project's register width (`get_word_size`). -/
structure GAState where
  registers : List (String × DExpr)
  pc_register : Nat
  marked_symbolic : List Variable
  pc_hooks : List (Nat × PCHook)
  word_size : Nat
deriving DecidableEq

/-- Embeds `Solutions` from the solver interface consumed by
`GAState::set_register`: `Exactly` a list of solutions or `AtLeast` a lower
bound. -/
inductive Solutions where
  | exactly (v : List DExpr)
  | atLeast (n : Nat)

/-- Embeds the `GAError` variants (`symex_take_2/src/lib.rs` lines 63-92;
the v1 enum has the same claim-relevant variants) that the claims need.
Project errors are reduced to their message. -/
inductive GAError where
  | entryFunctionNotFound (s : String)
  | writingToStaticMemoryProhibited
  | nonDeterministicPC
  | projectError (s : String)
  | smtMemoryError
deriving DecidableEq

/-- Outcome of a Rust method that can return `Ok`, return `Err`, or panic
(`todo!` and friends); a panic carries its message. -/
inductive Outcome (α : Type) where
  | ok (a : α)
  | error (e : GAError)
  | panicked (msg : String)
deriving DecidableEq

/-- Embeds `GAState::set_register` (v1 `state.rs` lines 251-290; the
`GAState` copy in `symex_take_2/src/executor/state.rs` lines 670-709 is
identical).  A write to `"PC"` first forces the value concrete: a symbolic
expression makes the source ask `self.constraints.get_values(&expr, 500)`
and then reach `todo!("handle symbolic branch")` whatever the solver
answered (`todo!("e")` if a returned solution is itself non-constant,
`todo!("Handle with lower bound, ...")` on `AtLeast`).  Afterwards every
write goes through the register write hook if one is installed, else into
the register map.  The solver and the hook table, reached through
`self.constraints` / `self.project` in the source, are explicit
parameters. -/
def GAState.set_register
    (get_values : DExpr → Nat → Solutions)
    (write_hooks : String → Option (GAState → DExpr → Outcome GAState))
    (s : GAState) (register : String) (expr : DExpr) : Outcome GAState :=
  if register = "PC" then
    match expr.get_constant with
    | some v =>
        let s2 := { s with pc_register := v }
        match write_hooks register with
        | some hook => hook s2 expr
        | none => .ok { s2 with registers := insertA s2.registers register expr }
    | none =>
        match get_values expr 500 with
        | .exactly vs =>
            if vs.all (fun n => n.get_constant.isSome) then
              .panicked ("handle symbolic branch")
            else
              .panicked ("e")
        | .atLeast _ =>
            .panicked ("Handle with lower bound, this should likely be done using a sub sample of the signal")
  else
    match write_hooks register with
    | some hook => hook s expr
    | none => .ok { s with registers := insertA s.registers register expr }

/-- Embeds `GAState::get_register` (v1 `state.rs` lines 292-316): an
installed read hook wins; otherwise a missing register is created as a
fresh unconstrained symbol of the project word width, pushed onto
`marked_symbolic`, and memoized into the register map. -/
def GAState.get_register
    (read_hooks : String → Option (GAState → Outcome (GAState × DExpr)))
    (s : GAState) (register : String) : Outcome (GAState × DExpr) :=
  match read_hooks register with
  | some hook => hook s
  | none =>
      match lookupA s.registers register with
      | some v => .ok (s, v)
      | none =>
          let value := DExpr.unconstrained register s.word_size
          .ok ({ s with
              marked_symbolic := s.marked_symbolic ++ [⟨some register, value, s.word_size⟩],
              registers := insertA s.registers register value }, value)

/-- Result of `GAState::get_next_instruction`: a PC hook, or an instruction
fetched by the decoder; the instruction is represented by the address handed
to `Project::get_instruction`. -/
inductive HookOrInstruction where
  | pcHook (h : PCHook)
  | instruction (fetch_addr : Nat)
deriving DecidableEq

/-- Embeds `GAState::get_next_instruction` (v1 `state.rs` lines 380-389;
`GAState2::get_next_instruction` in `symex_take_2/src/executor/state.rs`
lines 359-373 applies the same `& !(0b1)` mask): the concrete PC is masked
with the u64 complement of 1, the PC hook table is consulted at the masked
address, and otherwise the decoder is handed the masked address. -/
def GAState.get_next_instruction (s : GAState) : HookOrInstruction :=
  let pc := Nat.land s.pc_register 0xFFFFFFFFFFFFFFFE
  match lookupA s.pc_hooks pc with
  | some hook => .pcHook hook
  | none => .instruction pc

/-- The u64 mask `!1` clears exactly bit 0: on an odd 64-bit value it yields
the even predecessor. -/
theorem land_mask_odd (k : Nat) (hk : k < 2 ^ 63) :
    Nat.land (2 * k + 1) 0xFFFFFFFFFFFFFFFE = 2 * k := by
  have hmask : (0xFFFFFFFFFFFFFFFE : Nat) = 2 * (2 ^ 63 - 1) := by norm_num
  apply Nat.eq_of_testBit_eq
  intro i
  show ((2 * k + 1) &&& 0xFFFFFFFFFFFFFFFE).testBit i = (2 * k).testBit i
  rw [Nat.testBit_land, hmask]
  cases i with
  | zero =>
    simp [Nat.testBit_zero, Nat.mul_add_mod]
  | succ j =>
    rw [Nat.testBit_succ, Nat.testBit_succ, Nat.testBit_succ]
    have h1 : (2 * k + 1) / 2 = k := by omega
    have h2 : 2 * (2 ^ 63 - 1) / 2 = 2 ^ 63 - 1 := by omega
    have h3 : 2 * k / 2 = k := by omega
    rw [h1, h2, h3, Nat.testBit_two_pow_sub_one]
    by_cases hj : j < 63
    · simp [hj]
    · have hbit : k.testBit j = false := by
        apply Nat.testBit_lt_two_pow
        calc k < 2 ^ 63 := hk
        _ ≤ 2 ^ j := Nat.pow_le_pow_right (by norm_num) (by omega)
      simp [hbit]

/-- C10: with an odd concrete PC `2k + 1` (a Thumb address with bit 0 set),
`GAState::get_next_instruction` masks the PC with `!1` before doing
anything else, so both the PC-hook lookup and the decoder receive the
aligned address `2k`: a hook installed at the aligned address fires even
though PC holds the odd value, and otherwise the decoder fetches from the
aligned address. -/
theorem c10_fetch_uses_aligned_pc (s : GAState) (k : Nat) (hk : k < 2 ^ 63)
    (hpc : s.pc_register = 2 * k + 1) :
    s.get_next_instruction
      = (match lookupA s.pc_hooks (2 * k) with
        | some hook => HookOrInstruction.pcHook hook
        | none => HookOrInstruction.instruction (2 * k)) := by
  unfold GAState.get_next_instruction
  rw [hpc, land_mask_odd k hk]

/-- Witness for C10 at a concrete input: PC holds the odd value 5, an
`EndSuccess` hook is installed at the aligned address 4, and the hook
fires. -/
theorem c10_fetch_uses_aligned_pc_witness :
    (2 : Nat) < 2 ^ 63 ∧
      (⟨[], 5, [], [(4, PCHook.endSuccess)], 32⟩ : GAState).get_next_instruction
        = HookOrInstruction.pcHook PCHook.endSuccess := by
  refine ⟨by norm_num, ?_⟩
  have h := c10_fetch_uses_aligned_pc ⟨[], 5, [], [(4, PCHook.endSuccess)], 32⟩ 2
    (by norm_num) rfl
  simpa [lookupA] using h

/-- Modelled from the spec: the immutable program image (`Project`).  Its
implementation file is not under the packaged sources (only
`string_mapping.rs` and `dwarf_helper.rs` of the project modules are), so it
is modelled from spec section 6: byte-accurate segment reads by address and
width 8/16/32/64 with the project's endianness, a symbol table, a static
range whose reads bypass the RAM overlay and whose writes are errors, and
pointer/word sizes. -/
structure Project where
  bytes : Nat → Nat
  static_start : Nat
  static_end : Nat
  endianness : Endianness
  ptr_size : Nat
  word_size : Nat
  symbols : List (String × Nat)

/-- Modelled from the spec: `Project::address_in_range` — whether an address
lies in the program image's declared static range. -/
def Project.address_in_range (p : Project) (a : Nat) : Bool :=
  decide (p.static_start ≤ a) && decide (a < p.static_end)

/-- Modelled from the spec: `Project::get_symbol_address` (symbol name →
address). -/
def Project.get_symbol_address (p : Project) (name : String) : Option Nat :=
  lookupA p.symbols name

/-- Assembly of `n` program-image bytes starting at `addr` into a value,
least significant byte first for little endian, most significant first for
big endian. -/
def Project.read_bytes (p : Project) (addr n : Nat) : Nat :=
  match n with
  | 0 => 0
  | m + 1 =>
    match p.endianness with
    | Endianness.little => p.bytes addr % 2 ^ 8 + 2 ^ 8 * p.read_bytes (addr + 1) m
    | Endianness.big => p.bytes addr % 2 ^ 8 * 2 ^ (8 * m) + p.read_bytes (addr + 1) m

/-- Embeds `DataWord` from the `general_assembly` operand module (variants
`Word8/16/32/64`). -/
inductive DataWord where
  | word8 (v : Nat)
  | word16 (v : Nat)
  | word32 (v : Nat)
  | word64 (v : Nat)
deriving DecidableEq

/-- Embeds the memory-error kinds of spec section 7 that the claims need. -/
inductive MemoryError where
  | inconsistentWidth
  | memoryFileError
deriving DecidableEq

/-- Modelled from the spec: `Project::get` — a byte-accurate read of `size`
bits (8, 16, 32 or 64) at a constant address, packaged as the `DataWord` of
that width; any other size is a width error. -/
def Project.get (p : Project) (addr size : Nat) : Except MemoryError DataWord :=
  match size with
  | 8 => .ok (.word8 (p.read_bytes addr 1))
  | 16 => .ok (.word16 (p.read_bytes addr 2))
  | 32 => .ok (.word32 (p.read_bytes addr 4))
  | 64 => .ok (.word64 (p.read_bytes addr 8))
  | _ => .error .inconsistentWidth

/-- Embeds `from_u64` of the Boolector expression layer: a constant
bitvector of the requested width, truncating the value to the width as the
backend does. -/
def from_u64 (value size : Nat) : BV := ⟨size, value % 2 ^ size⟩

/-- Embeds `BoolectorMemory::get`
(`symex_take_2/src/memory/array_memory.rs` lines 214-231): a constant
address outside the program image reads the RAM overlay; a constant address
inside the static range reads the program image — note that the
`DataWord::Word64` arm of the source calls `from_u64(value as u64, 32)` —
and a symbolic address reads the RAM overlay.  The overlay read
`self.ram.read(idx, size)` is abstracted into the `ram_read` parameter, and
the `program_memory` field (a `&'static Project` in the source) is passed
explicitly. -/
def BoolectorMemory.get (program_memory : Project) (ram_read : DExpr → Nat → BV)
    (idx : DExpr) (size : Nat) : Except MemoryError BV :=
  match idx.get_constant with
  | some address =>
      if ¬ program_memory.address_in_range address then
        .ok (ram_read idx size)
      else
        match program_memory.get address size with
        | .error e => .error e
        | .ok (.word8 value) => .ok (from_u64 value 8)
        | .ok (.word16 value) => .ok (from_u64 value 16)
        | .ok (.word32 value) => .ok (from_u64 value 32)
        | .ok (.word64 value) => .ok (from_u64 value 32)
  | none => .ok (ram_read idx size)

/-- The little-endian program image used by the concrete evaluations: byte
`a % 8 + 1` at address `a`, static range `[0x1000, 0x2000)`, so the bytes at
`0x1000` are 1, 2, ..., 8. -/
def projC2 : Project where
  bytes := fun a => a % 8 + 1
  static_start := 0x1000
  static_end := 0x2000
  endianness := Endianness.little
  ptr_size := 32
  word_size := 32
  symbols := [("main", 0x1100), ("_stack_start", 0x20000000)]

/-- C2: the claim requires a static read of width `w` to return a concrete
bitvector of width `w` assembled from the ELF bytes.  That holds for widths
8, 16 and 32, but the `DataWord::Word64` arm of `BoolectorMemory::get`
calls `from_u64(value, 32)`: at address `0x1000` of `projC2` the 64-bit
program word is `0x0807060504030201`, yet `get` returns the 32-bit
truncation `0x04030201`, and a width-32 bitvector is not the claimed
width-64 one.  (`GAState::read_word_from_memory` in the v1 crate builds the
`Word64` case at width 64.) -/
theorem c2_static_read_word64_width_bug :
    projC2.get 0x1000 64 = Except.ok (DataWord.word64 0x0807060504030201) ∧
    BoolectorMemory.get projC2 (fun _ _ => ⟨0, 0⟩) (DExpr.const 0x1000 32) 64
      = Except.ok ⟨32, 0x04030201⟩ ∧
    (⟨32, 0x04030201⟩ : BV).width ≠ 64 := by
  refine ⟨rfl, rfl, by decide⟩

/-- The RAM overlay as a write log: the sequence of (address expression,
value) pairs handed to `ArrayMemory::write` / `BoolectorMemory::set`.  This
keeps symbolic addresses representable while the claims only need "the
write reached the RAM overlay and succeeded". -/
abbrev RamLog : Type := List (DExpr × BV)

/-- Embeds `GAState::write_word_to_memory` (v1
`symex/src/general_assembly/state.rs` lines 422-436;
`GAState2::write_word_to_memory` in `symex_take_2/src/executor/state.rs`
lines 415-433 is textually identical): a constant address inside the static
range is rejected with `WritingToStaticMemoryProhibited` before any memory
is touched; every other write goes to the RAM overlay
(`write_word_from_memory_no_static`, i.e. `self.memory.write`).  The
`&mut self` receiver plus `Result<()>` becomes an explicit
(overlay, optional error) pair, so "the overlay is unchanged on error" is
visible in the result. -/
def GAState.write_word_to_memory (proj : Project) (ram : RamLog)
    (address : DExpr) (value : BV) : RamLog × Option GAError :=
  match address.get_constant with
  | some address_const =>
      if proj.address_in_range address_const then
        (ram, some GAError.writingToStaticMemoryProhibited)
      else
        (ram ++ [(address, value)], none)
  | none => (ram ++ [(address, value)], none)

/-- Embeds `BoolectorMemory::set`
(`symex_take_2/src/memory/array_memory.rs` lines 233-239): the take-2
memory map itself performs no static-range check — it always writes the RAM
overlay; the static check guarding it lives in
`GAState2::write_word_to_memory`. -/
def BoolectorMemory.set (ram : RamLog) (idx : DExpr) (value : BV) : RamLog :=
  ram ++ [(idx, value)]

/-- C3: a write at a constant address inside the static range fails with
`WritingToStaticMemoryProhibited` and leaves the RAM overlay unchanged; a
write at a constant address outside the range, and a write at a symbolic
address, append to the RAM overlay and succeed. -/
theorem c3_static_write_prohibited (proj : Project) (ram : RamLog) (address : DExpr)
    (value : BV) :
    (∀ a, address.get_constant = some a →
      (proj.address_in_range a = true →
        GAState.write_word_to_memory proj ram address value
          = (ram, some GAError.writingToStaticMemoryProhibited)) ∧
      (proj.address_in_range a = false →
        GAState.write_word_to_memory proj ram address value
          = (ram ++ [(address, value)], none))) ∧
    (address.get_constant = none →
      GAState.write_word_to_memory proj ram address value
        = (ram ++ [(address, value)], none)) := by
  constructor
  · intro a ha
    constructor <;> intro hrange <;>
      simp [GAState.write_word_to_memory, ha, hrange]
  · intro ha
    simp [GAState.write_word_to_memory, ha]

/-- Witness for C3 at concrete inputs over `projC2`: address `0x1000` (in
the static range) is rejected with the overlay untouched, address `0x3000`
(outside) and a symbolic address reach the overlay. -/
theorem c3_static_write_prohibited_witness :
    projC2.address_in_range 0x1000 = true ∧
    projC2.address_in_range 0x3000 = false ∧
    GAState.write_word_to_memory projC2 [] (DExpr.const 0x1000 32) ⟨32, 5⟩
      = ([], some GAError.writingToStaticMemoryProhibited) ∧
    GAState.write_word_to_memory projC2 [] (DExpr.const 0x3000 32) ⟨32, 5⟩
      = ([(DExpr.const 0x3000 32, ⟨32, 5⟩)], none) ∧
    GAState.write_word_to_memory projC2 [] (DExpr.unconstrained ("a") 32) ⟨32, 5⟩
      = ([(DExpr.unconstrained ("a") 32, ⟨32, 5⟩)], none) :=
  ⟨rfl, rfl,
    ((c3_static_write_prohibited projC2 [] (DExpr.const 0x1000 32) ⟨32, 5⟩).1
      0x1000 rfl).1 rfl,
    ((c3_static_write_prohibited projC2 [] (DExpr.const 0x3000 32) ⟨32, 5⟩).1
      0x3000 rfl).2 rfl,
    (c3_static_write_prohibited projC2 [] (DExpr.unconstrained ("a") 32) ⟨32, 5⟩).2 rfl⟩

/-- Embeds the fields of `BoolectorMemory`
(`symex_take_2/src/memory/array_memory.rs` lines 157-168) the claims touch:
the register file, the flags, the concrete `pc` shadow, and `word_size`
(which receives the pointer size).  The theory-of-arrays RAM and the
`&'static Project` handle are passed to the functions that need them. -/
structure BoolectorMemory where
  register_file : List (String × DExpr)
  flags : List (String × DExpr)
  pc : Nat
  word_size : Nat
deriving DecidableEq

/-- Embeds `BoolectorMemory::new` (`array_memory.rs` lines 175-212): fresh
RAM, empty register file, empty flags, `pc = 0`; `word_size` receives the
pointer size that `GAState2::new` passes. -/
def BoolectorMemory.new (word_size : Nat) : BoolectorMemory :=
  { register_file := [], flags := [], pc := 0, word_size := word_size }

/-- Embeds `BoolectorMemory::set_pc` (`array_memory.rs` lines 245-248): the
`u32` value is stored into the concrete `pc` shadow. -/
def BoolectorMemory.set_pc (m : BoolectorMemory) (value : Nat) : BoolectorMemory :=
  { m with pc := value }

/-- Embeds `BoolectorMemory::set_register` (`array_memory.rs` lines
269-276). -/
def BoolectorMemory.set_register (m : BoolectorMemory) (idx : String) (value : DExpr) :
    BoolectorMemory :=
  { m with register_file := insertA m.register_file idx value }

/-- Embeds `BoolectorMemory::get_register` (`array_memory.rs` lines
278-287): a missing register becomes a fresh unconstrained symbol of
`word_size` bits, and the result is inserted back into the register file so
that any later read of the same register returns the same expression (the
source comment: "Ensure that any read from the same register returns
the"). -/
def BoolectorMemory.get_register (m : BoolectorMemory) (idx : String) :
    BoolectorMemory × DExpr :=
  let ret := (lookupA m.register_file idx).getD (DExpr.unconstrained idx m.word_size)
  ({ m with register_file := insertA m.register_file idx ret }, ret)

/-- Embeds the fields of `GAState2` (`symex_take_2/src/executor/state.rs`
lines 47-64) the claims touch.  The hook container is passed to the
functions that consult it: storing function-valued hooks inside the state
is impossible in the embedding (positivity), and the source only ever reads
the tables. -/
structure GAState2 where
  memory : BoolectorMemory
  last_pc : Nat
  count_cycles : Bool
  cycle_count : Nat
  instruction_counter : Nat
  has_jumped : Bool
  any_counter : Nat
deriving DecidableEq

/-- Embeds `GAState2::set_register` (`state.rs` lines 255-280): a write to
`"PC"` requires a constant expression —
`expr.get_constant().ok_or(GAError::NonDeterministicPC)? as u32` — and
never consults the solver; the `as u32` cast truncates the value before
`write_pc`/`set_pc` stores it.  Writes to other registers go through the
register write hook when one is installed, else into the register file. -/
def GAState2.set_register
    (write_hooks : String → Option (GAState2 → DExpr → Outcome GAState2))
    (s : GAState2) (register : String) (expr : DExpr) : Outcome GAState2 :=
  if register = "PC" then
    match expr.get_constant with
    | none => .error GAError.nonDeterministicPC
    | some v => .ok { s with memory := s.memory.set_pc (v % 2 ^ 32) }
  else
    match write_hooks register with
    | some hook => hook s expr
    | none => .ok { s with memory := s.memory.set_register register expr }

/-- C1: the claim describes symbolic-PC resolution by solver enumeration
that forks into one successor per solution.  Neither implementation does
this: with a solver offering exactly two concrete PC values,
`GAState::set_register` (v1) requests up to 500 solutions and then reaches
`todo!("handle symbolic branch")`, and `GAState2::set_register` (take 2)
returns the `NonDeterministicPC` error without consulting the solver at
all — no successor state is produced by either. -/
theorem c1_symbolic_pc_write_does_not_fork :
    GAState.set_register
        (fun _ _ => Solutions.exactly [DExpr.const 0x100 32, DExpr.const 0x200 32])
        (fun _ => none)
        ⟨[], 0, [], [], 32⟩ "PC" (DExpr.unconstrained ("b") 32)
      = Outcome.panicked ("handle symbolic branch") ∧
    GAState2.set_register (fun _ => none)
        ⟨BoolectorMemory.new 32, 0, true, 0, 0, false, 0⟩ "PC"
        (DExpr.unconstrained ("b") 32)
      = Outcome.error GAError.nonDeterministicPC :=
  ⟨rfl, rfl⟩

/-- Embeds `GAState2::new` (`symex_take_2/src/executor/state.rs` lines
66-128).  The function resolves the entry symbol and `_stack_start`, builds
a fresh memory, then constructs local `registers` and `flags` maps holding
`PC`, `SP` and the `LR := end_address` sentinel — and returns a state that
does not contain them: the `Ok(Self { .. })` at the end of the source
stores only `memory` (whose register file is empty and whose `pc` is 0) and
the bookkeeping fields, so the two local maps are dropped.  The dead
bindings are kept here to mirror the source. -/
def GAState2.new (project : Project) (function : String) (end_address : Nat) :
    Except GAError GAState2 :=
  match project.get_symbol_address function with
  | none => .error (GAError.entryFunctionNotFound function)
  | some pc_reg =>
    match project.get_symbol_address ("_stack_start") with
    | none => .error (GAError.projectError ("start of stack not found"))
    | some sp_reg =>
      let ptr_size := project.ptr_size
      let memory := BoolectorMemory.new ptr_size
      let registers : List (String × DExpr) :=
        insertA (insertA (insertA [] ("PC") (DExpr.const pc_reg ptr_size))
          ("SP") (DExpr.const sp_reg ptr_size)) ("LR") (DExpr.const end_address ptr_size)
      let flags : List (String × DExpr) :=
        insertA (insertA (insertA (insertA [] ("N") (DExpr.unconstrained ("flags.N") 1))
          ("Z") (DExpr.unconstrained ("flags.Z") 1))
          ("C") (DExpr.unconstrained ("flags.C") 1))
          ("V") (DExpr.unconstrained ("flags.V") 1)
      .ok { memory := memory, last_pc := 0, count_cycles := true, cycle_count := 0,
            instruction_counter := 0, has_jumped := false, any_counter := 0 }

/-- Embeds `GAState::new` (v1 `symex/src/general_assembly/state.rs` lines
56-121), reduced to the claim-relevant fields of the v1 state: unlike the
take-2 rewrite, the constructed register map — with the
`LR := end_address` sentinel ("set the link register to max value to detect
when returning from a function") — is stored in the returned state, and the
concrete PC shadow starts at the entry address. -/
def GAState.new (project : Project) (function : String) (end_address : Nat)
    (pc_hooks : List (Nat × PCHook)) : Except GAError GAState :=
  match project.get_symbol_address function with
  | none => .error (GAError.entryFunctionNotFound function)
  | some pc_reg =>
    match project.get_symbol_address ("_stack_start") with
    | none => .error (GAError.projectError ("start of stack not found"))
    | some sp_reg =>
      let ptr_size := project.ptr_size
      let registers :=
        insertA (insertA (insertA [] ("PC") (DExpr.const pc_reg ptr_size))
          ("SP") (DExpr.const sp_reg ptr_size)) ("LR") (DExpr.const end_address ptr_size)
      .ok { registers := registers, pc_register := pc_reg, marked_symbolic := [],
            pc_hooks := pc_hooks, word_size := project.word_size }

/-- Embeds the end-PC sentinel wiring of `run_elf`
(`symex/src/run_elf.rs` lines 98 and 125-142): `end_pc = 0xFFFFFFFE`, an
`EndSuccess` PC hook is installed at `end_pc`, and `end_pc` is the
`end_address` handed to the state constructor. -/
def run_elf_end_pc : Nat := 0xFFFFFFFE

/-- C4: the claim says the initial state's LR is preloaded with
`0xFFFF_FFFE`.  The v1 driver does this: `GAState::new` stores
`LR := end_address` in the state's register map.  The take-2 rewrite does
not: `GAState2::new` computes the same map and then drops it, so the
returned state has no `LR` entry at all (and its concrete `pc` shadow is
0 rather than the entry address), contradicting the code's own comment
about detecting the return from the entry function. -/
theorem c4_lr_preload_dropped_in_take2 :
    ((GAState.new projC2 ("main") run_elf_end_pc
          [(run_elf_end_pc, PCHook.endSuccess)]).map
        (fun st => lookupA st.registers ("LR")))
      = Except.ok (some (DExpr.const 0xFFFFFFFE 32)) ∧
    ((GAState2.new projC2 ("main") run_elf_end_pc).map
        (fun st => lookupA st.memory.register_file ("LR")))
      = Except.ok none ∧
    ((GAState2.new projC2 ("main") run_elf_end_pc).map (fun st => st.memory.pc))
      = Except.ok 0 :=
  ⟨rfl, rfl, rfl⟩

/-- Embeds `ResultOrHook` from `symex_take_2/src/executor/hooks.rs` lines
229-233. -/
inductive ResultOrHook (α β : Type) where
  | result (a : α)
  | hook (b : β)
  | hooks (l : List β)
deriving DecidableEq

/-- Embeds the four memory-hook tables of `HookContainer`
(`symex_take_2/src/executor/hooks.rs` lines 43-60); hook functions are
abstracted to a type parameter since only their identity and order matter
to the claims. -/
structure MemHookTables (β : Type) where
  single_memory_read_hook : List (Nat × β)
  range_memory_read_hook : List ((Nat × Nat) × β)
  single_memory_write_hook : List (Nat × β)
  range_memory_write_hook : List ((Nat × Nat) × β)

/-- Embeds `Reader::read_memory` (`hooks.rs` lines 236-274): a symbolic
address reads memory directly; at a constant address with a single-address
hook installed, the result is the matching range hooks (filtered by the
inclusive range test `(lower..=upper).contains`) followed by the
single-address hook; with only range hooks they are returned alone; with no
hook the memory is read. -/
def Reader.read_memory {α β : Type} (t : MemHookTables β) (mem_get : DExpr → Nat → α)
    (addr : DExpr) (size : Nat) : ResultOrHook α β :=
  match addr.get_constant with
  | none => .result (mem_get addr size)
  | some caddr =>
    match lookupA t.single_memory_read_hook caddr with
    | some hook =>
        let ret := (t.range_memory_read_hook.filter
          (fun el => decide (el.1.1 ≤ caddr) && decide (caddr ≤ el.1.2))).map
            (fun el => el.2)
        .hooks (ret ++ [hook])
    | none =>
        let ret := (t.range_memory_read_hook.filter
          (fun el => decide (el.1.1 ≤ caddr) && decide (caddr ≤ el.1.2))).map
            (fun el => el.2)
        if ret.isEmpty then .result (mem_get addr size) else .hooks ret

/-- Embeds `Writer::write_memory` (`hooks.rs` lines 296-338), symmetric to
`Reader::read_memory` over the write-hook tables. -/
def Writer.write_memory {α β : Type} (t : MemHookTables β) (mem_set : DExpr → BV → α)
    (addr : DExpr) (value : BV) : ResultOrHook α β :=
  match addr.get_constant with
  | none => .result (mem_set addr value)
  | some caddr =>
    match lookupA t.single_memory_write_hook caddr with
    | some hook =>
        let ret := (t.range_memory_write_hook.filter
          (fun el => decide (el.1.1 ≤ caddr) && decide (caddr ≤ el.1.2))).map
            (fun el => el.2)
        .hooks (ret ++ [hook])
    | none =>
        let ret := (t.range_memory_write_hook.filter
          (fun el => decide (el.1.1 ≤ caddr) && decide (caddr ≤ el.1.2))).map
            (fun el => el.2)
        if ret.isEmpty then .result (mem_set addr value) else .hooks ret

/-- C6: for a constant address at which both a single-address hook and at
least the matching range hooks are installed, `Reader::read_memory` and
`Writer::write_memory` both return a `Hooks` list consisting of every
matching range hook followed by the single-address hook — the source
pushes the single hook onto the end of the collected range hooks — so when
the executor applies the list in order (as `GAState2::set_register` does
for register hook lists) the single-address hook observes the effect of all
range hooks, on reads and on writes alike. -/
theorem c6_range_hooks_run_before_single {α β : Type} (t : MemHookTables β)
    (mem_get : DExpr → Nat → α) (mem_set : DExpr → BV → α) (caddr width size : Nat)
    (value : BV) (rh sh : β)
    (h1 : lookupA t.single_memory_read_hook caddr = some rh)
    (h2 : lookupA t.single_memory_write_hook caddr = some sh) :
    Reader.read_memory t mem_get (DExpr.const caddr width) size
      = ResultOrHook.hooks (((t.range_memory_read_hook.filter
          (fun el => decide (el.1.1 ≤ caddr) && decide (caddr ≤ el.1.2))).map
            (fun el => el.2)) ++ [rh]) ∧
    Writer.write_memory t mem_set (DExpr.const caddr width) value
      = ResultOrHook.hooks (((t.range_memory_write_hook.filter
          (fun el => decide (el.1.1 ≤ caddr) && decide (caddr ≤ el.1.2))).map
            (fun el => el.2)) ++ [sh]) := by
  constructor
  · simp [Reader.read_memory, DExpr.get_constant, h1]
  · simp [Writer.write_memory, DExpr.get_constant, h2]

/-- Witness for C6 at a concrete input: one range hook over
`[0x100, 0x1FF]` and one single-address hook at `0x150` for each direction;
the returned lists place the range hook first. -/
theorem c6_range_hooks_run_before_single_witness :
    lookupA (MemHookTables.mk [(0x150, 10)] [((0x100, 0x1FF), 1)]
        [(0x150, 20)] [((0x100, 0x1FF), 2)]).single_memory_read_hook 0x150 = some 10 ∧
    Reader.read_memory
        (MemHookTables.mk [(0x150, 10)] [((0x100, 0x1FF), 1)]
          [(0x150, 20)] [((0x100, 0x1FF), 2)])
        (fun _ _ => (0 : Nat)) (DExpr.const 0x150 32) 32
      = ResultOrHook.hooks [1, 10] ∧
    Writer.write_memory
        (MemHookTables.mk [(0x150, 10)] [((0x100, 0x1FF), 1)]
          [(0x150, 20)] [((0x100, 0x1FF), 2)])
        (fun _ _ => (0 : Nat)) (DExpr.const 0x150 32) ⟨32, 7⟩
      = ResultOrHook.hooks [2, 20] := by
  have h := c6_range_hooks_run_before_single
    (MemHookTables.mk [(0x150, 10)] [((0x100, 0x1FF), 1)]
      [(0x150, 20)] [((0x100, 0x1FF), 2)])
    (fun _ _ => (0 : Nat)) (fun _ _ => (0 : Nat)) 0x150 32 32 ⟨32, 7⟩ 10 20 rfl rfl
  exact ⟨rfl, h.1, h.2⟩

/-- Association-list lookup finds the value just inserted. -/
theorem lookupA_insertA_self {κ α : Type} [DecidableEq κ] (l : List (κ × α)) (k : κ)
    (v : α) : lookupA (insertA l k v) k = some v := by
  induction l with
  | nil => simp [insertA, lookupA]
  | cons p rest ih =>
    obtain ⟨k2, v2⟩ := p
    by_cases h : k = k2 <;> simp [insertA, lookupA, h, ih]

/-- C7: reading a register with no read hook that was never written
allocates a fresh unconstrained symbol of the register width (the `word_size`
that the engine instantiates with the pointer size), records it as a
symbolic input in `marked_symbolic` (v1), memoizes it into the register
file, and every subsequent read of that register returns the same
expression.  Stated for `GAState::get_register` (v1) and
`BoolectorMemory::get_register` (take 2). -/
theorem c7_register_read_memoized
    (read_hooks : String → Option (GAState → Outcome (GAState × DExpr)))
    (s : GAState) (m : BoolectorMemory) (register : String)
    (hhook : read_hooks register = none)
    (hmiss : lookupA s.registers register = none)
    (hmiss2 : lookupA m.register_file register = none) :
    (∃ s2, GAState.get_register read_hooks s register
        = Outcome.ok (s2, DExpr.unconstrained register s.word_size) ∧
      GAState.get_register read_hooks s2 register
        = Outcome.ok (s2, DExpr.unconstrained register s.word_size) ∧
      s2.marked_symbolic = s.marked_symbolic
        ++ [⟨some register, DExpr.unconstrained register s.word_size, s.word_size⟩]) ∧
    ((m.get_register register).2 = DExpr.unconstrained register m.word_size ∧
      (((m.get_register register).1.get_register register).2
        = (m.get_register register).2)) := by
  constructor
  · refine ⟨{ s with
        marked_symbolic := s.marked_symbolic
          ++ [⟨some register, DExpr.unconstrained register s.word_size, s.word_size⟩],
        registers := insertA s.registers register
          (DExpr.unconstrained register s.word_size) }, ?_, ?_, rfl⟩
    · simp [GAState.get_register, hhook, hmiss]
    · simp [GAState.get_register, hhook, lookupA_insertA_self]
  · constructor
    · simp [BoolectorMemory.get_register, hmiss2]
    · simp [BoolectorMemory.get_register, hmiss2, lookupA_insertA_self]

/-- Witness for C7 at a concrete input: register `R3`, no hooks, empty
register files in both states. -/
theorem c7_register_read_memoized_witness :
    (∃ s2, GAState.get_register (fun _ => none) (⟨[], 0, [], [], 32⟩ : GAState) ("R3")
        = Outcome.ok (s2, DExpr.unconstrained ("R3") 32) ∧
      GAState.get_register (fun _ => none) s2 ("R3")
        = Outcome.ok (s2, DExpr.unconstrained ("R3") 32) ∧
      s2.marked_symbolic = [⟨some ("R3"), DExpr.unconstrained ("R3") 32, 32⟩]) ∧
    (((⟨[], [], 0, 32⟩ : BoolectorMemory).get_register ("R3")).2
        = DExpr.unconstrained ("R3") 32 ∧
      ((((⟨[], [], 0, 32⟩ : BoolectorMemory).get_register ("R3")).1.get_register
          ("R3")).2
        = ((⟨[], [], 0, 32⟩ : BoolectorMemory).get_register ("R3")).2)) :=
  c7_register_read_memoized (fun _ => none) ⟨[], 0, [], [], 32⟩ ⟨[], [], 0, 32⟩
    ("R3") rfl rfl rfl

/-- Modelled from the regex crate semantics for the concrete patterns used
by the hook code (the regex engine is an external crate): `is_match` of an
`^...$`-anchored literal pattern is string equality, and `is_match` of
`^panic_*` (v1) holds exactly for names starting with `"panic"`, since the
trailing `_*` matches zero or more underscores and nothing anchors the
end. -/
def regex_is_match (pattern name : String) : Bool :=
  if pattern = "^panic_$" then name = "panic_"
  else if pattern = "^panic_cold_explicit$" then name = "panic_cold_explicit"
  else if pattern = "^unwrap_failed$" then name = "unwrap_failed"
  else if pattern = "^panic_bounds_check$" then name = "panic_bounds_check"
  else if pattern = "^unreachable_unchecked$" then name = "unreachable_unchecked"
  else if pattern = "^suppress_path$" then name = "suppress_path"
  else if pattern = "^start_cyclecount$" then name = "start_cyclecount"
  else if pattern = "^end_cyclecount$" then name = "end_cyclecount"
  else if pattern = "^panic_*" then List.isPrefixOf ("panic".toList) name.toList
  else false

/-- The claim's own pattern `^panic.*$`: it matches exactly the names that
start with `"panic"` (symbol names contain no newline, which is the only
character `.` excludes). -/
def matches_panic_any (name : String) : Bool :=
  List.isPrefixOf ("panic".toList) name.toList

/-- Embeds `SubProgram` (`symex_take_2/src/project/dwarf_helper.rs` lines
26-32), reduced to name and bounds. -/
structure SubProgram where
  name : String
  bounds : Nat × Nat
deriving DecidableEq

/-- Embeds `SubProgramMap` as the list of its subprograms.  The source
backs it with `HashMap`s whose iteration order is unspecified; the
embedding fixes list order. -/
abbrev SubProgramMap : Type := List SubProgram

/-- Embeds `SubProgramMap::get_by_regex` (`dwarf_helper.rs` lines 68-76):
the first subprogram whose name matches the pattern, if any. -/
def SubProgramMap.get_by_regex (map : SubProgramMap) (pattern : String) :
    Option SubProgram :=
  map.find? (fun prog => regex_is_match pattern prog.name)

/-- Embeds the `pc_hook` table of `HookContainer` for the PC-hook claims. -/
structure HookContainer where
  pc_hook : List (Nat × PCHook)
deriving DecidableEq

/-- Embeds `HookContainer::add_pc_hook` (`hooks.rs` lines 84-87):
insert-or-overwrite at the address. -/
def HookContainer.add_pc_hook (c : HookContainer) (pc : Nat) (value : PCHook) :
    HookContainer :=
  { c with pc_hook := insertA c.pc_hook pc value }

/-- Embeds `HookContainer::add_pc_hook_regex` (`hooks.rs` lines 161-175):
the pattern is resolved through `get_by_regex` — a single subprogram — and
the hook is installed at that subprogram's lower bound; a missing match is
the error `EntryFunctionNotFound(pattern)`. -/
def HookContainer.add_pc_hook_regex (c : HookContainer) (map : SubProgramMap)
    (pattern : String) (hook : PCHook) : Except GAError HookContainer :=
  match map.get_by_regex pattern with
  | none => .error (GAError.entryFunctionNotFound pattern)
  | some program => .ok (c.add_pc_hook program.bounds.1 hook)

/-- Embeds `HookContainer::default` (`hooks.rs` lines 360-416): the default
hook set resolved against the subprogram map; note the first pattern is
`^panic_$`.  The two cycle-count intrinsics are distinct `intrinsic`
tags. -/
def HookContainer.default (map : SubProgramMap) : Except GAError HookContainer := do
  let ret : HookContainer := { pc_hook := [] }
  let ret ← ret.add_pc_hook_regex map ("^panic_$") (PCHook.endFailure ("panic"))
  let ret ← ret.add_pc_hook_regex map ("^panic_cold_explicit$")
    (PCHook.endFailure ("explicit panic"))
  let ret ← ret.add_pc_hook_regex map ("^unwrap_failed$")
    (PCHook.endFailure ("unwrap failed"))
  let ret ← ret.add_pc_hook_regex map ("^panic_bounds_check$")
    (PCHook.endFailure ("bounds check failed"))
  let ret ← ret.add_pc_hook_regex map ("^unreachable_unchecked$")
    (PCHook.endFailure ("reached a unreachable unchecked call undefined behavior"))
  let ret ← ret.add_pc_hook_regex map ("^suppress_path$") PCHook.suppress
  let ret ← ret.add_pc_hook_regex map ("^start_cyclecount$") (PCHook.intrinsic 0)
  let ret ← ret.add_pc_hook_regex map ("^end_cyclecount$") (PCHook.intrinsic 1)
  pure ret

/-- Embeds the v1 PC-hook regex list of `add_architecture_independent_hooks`
(`symex/src/run_elf.rs` lines 46-77), in source order; its panic pattern is
`^panic_*`. -/
def v1_pc_hooks : List (String × PCHook) :=
  [("^panic_cold_explicit$", PCHook.endFailure ("explicit panic")),
   ("^unwrap_failed$", PCHook.endFailure ("unwrap failed")),
   ("^panic_bounds_check$", PCHook.endFailure ("bounds check panic")),
   ("^suppress_path$", PCHook.suppress),
   ("^unreachable_unchecked$",
     PCHook.endFailure ("reach a unreachable unchecked call undefined behavior")),
   ("^start_cyclecount$", PCHook.intrinsic 0),
   ("^end_cyclecount$", PCHook.intrinsic 1),
   ("^panic_*", PCHook.endFailure ("panic"))]

/-- Embeds `construct_pc_hooks_no_index` (`dwarf_helper.rs` lines 189-244),
which resolves the v1 regex list: every subprogram is visited, and each
matching `(regex, hook)` pair inserts its hook at the subprogram's low
address (later pairs overwrite earlier ones for the same address). -/
def construct_pc_hooks_no_index (hooks : List (String × PCHook))
    (map : SubProgramMap) : List (Nat × PCHook) :=
  map.foldl (fun ret prog =>
    hooks.foldl (fun ret2 nh =>
      if regex_is_match nh.1 prog.name then insertA ret2 prog.bounds.1 nh.2
      else ret2) ret) []

/-- The subprogram map used for the C8 evaluation: a typical panic handler
`panic_handler`, a subprogram literally named `panic_`, and the exact-named
functions required by the remaining default patterns. -/
def mapC8 : SubProgramMap :=
  [⟨"panic_handler", (0x100, 0x110)⟩,
   ⟨"panic_", (0x120, 0x130)⟩,
   ⟨"panic_cold_explicit", (0x130, 0x140)⟩,
   ⟨"unwrap_failed", (0x140, 0x150)⟩,
   ⟨"panic_bounds_check", (0x150, 0x160)⟩,
   ⟨"unreachable_unchecked", (0x160, 0x170)⟩,
   ⟨"suppress_path", (0x170, 0x180)⟩,
   ⟨"start_cyclecount", (0x180, 0x190)⟩,
   ⟨"end_cyclecount", (0x190, 0x1A0)⟩]

/-- C8: the claim says the default hook set installs an `EndFailure` PC
hook at the start of every subprogram matching `^panic.*$`.  On `mapC8`
the name `panic_handler` matches that pattern, yet
`HookContainer::default` of the take-2 crate leaves its start address
`0x100` unhooked: its pattern is `^panic_$`, which only the literal name
`panic_` matches (hook installed at `0x120`), and `add_pc_hook_regex`
hooks a single subprogram anyway.  The v1 hook list (`^panic_*`, resolved
by `construct_pc_hooks_no_index` over every subprogram) does hook
`panic_handler`, showing the claimed behaviour is what v1 implements. -/
theorem c8_default_misses_panic_prefixed_subprograms :
    matches_panic_any ("panic_handler") = true ∧
    ((HookContainer.default mapC8).map (fun c => lookupA c.pc_hook 0x100))
      = Except.ok none ∧
    ((HookContainer.default mapC8).map (fun c => lookupA c.pc_hook 0x120))
      = Except.ok (some (PCHook.endFailure ("panic"))) ∧
    lookupA (construct_pc_hooks_no_index v1_pc_hooks mapC8) 0x100
      = some (PCHook.endFailure ("panic")) := by
  refine ⟨rfl, ?_, ?_, ?_⟩ <;> rfl
